import Mathlib

/-!
# OurPage dashboard: special dates and persisted lists

A shallow embedding of `static/js/dashboard.js` (class `RomanticDashboard`).

* Instants are integers: milliseconds since the epoch, as a JavaScript `Date`
  holds them.  The calendar functions are the ones ECMAScript defines for `Date`
  (`Day`, `DayFromYear`, `YearFromTime`, `MakeDay`, `MakeDate`), over unbounded
  integers: the `TimeClip` range limit of ±8.64e15 ms is outside the model.
* Local time is UTC shifted by a constant offset `tz` (milliseconds); daylight
  saving changes are outside the model.
* `new Date()` (the clock) is the parameter `now` of every function that reads it.
* Calls into the DOM (`renderDatesList`, `renderTasks`, `updatePhotoCounter`, and
  `updateCountdown` where the registry functions call it) change no modelled state
  and are left out; `showMessage` and `console.error` are kept
  as fields of the result.
* A `localStorage` key that holds a list is absent, holds a string `JSON.parse`
  rejects, or holds the JSON text of a list (`Stored`); a function that throws
  returns `Except.error`.  The view index is an integer or `NaN` (`none`).
-/

namespace OurPage

/-! ## ECMAScript time arithmetic -/

/-- Milliseconds in a day (ECMAScript `msPerDay`). -/
def msPerDay : Int := 86400000

/-- Day number of a time value: `floor(t / msPerDay)`. -/
def Day (t : Int) : Int := t / msPerDay

/-- Day number of the first day of year `y`. -/
def DayFromYear (y : Int) : Int :=
  365 * (y - 1970) + (y - 1969) / 4 - (y - 1901) / 100 + (y - 1601) / 400

/-- Time value of the start of year `y`. -/
def TimeFromYear (y : Int) : Int := msPerDay * DayFromYear y

/-- Number of days in year `y`. -/
def DaysInYear (y : Int) : Int :=
  if y % 4 ≠ 0 then 365
  else if y % 100 ≠ 0 then 366
  else if y % 400 ≠ 0 then 365
  else 366

/-- The year a time value falls in: the largest `y` with `TimeFromYear y ≤ t`.
Computed from the mean year length (146097 days in 400 years) and corrected by
at most one year; `YearFromTime_spec` shows it is that largest `y`. -/
def YearFromTime (t : Int) : Int :=
  let d := Day t
  let y := 1970 + (400 * d) / 146097
  if DayFromYear (y + 1) ≤ d then y + 1
  else if DayFromYear y ≤ d then y
  else y - 1

/-- Days from 1 January to the first day of month `mn` (0 = January) in a year
of 365 days. -/
def monthStart : Nat → Nat
  | 0 => 0
  | 1 => 31
  | 2 => 59
  | 3 => 90
  | 4 => 120
  | 5 => 151
  | 6 => 181
  | 7 => 212
  | 8 => 243
  | 9 => 273
  | 10 => 304
  | _ => 334

/-- Days from the start of a year to the first day of month `mn` (0 = January),
`leap` saying whether the year has 366 days. -/
def dayWithinYearOfMonth (mn : Int) (leap : Bool) : Int :=
  ((monthStart mn.toNat + (if leap && decide (2 ≤ mn) then 1 else 0) : Nat) : Int)

/-- ECMAScript `MakeDay(year, month, date)`: the day number of the first of month
`month mod 12` in year `year + floor(month / 12)`, plus `date - 1`. -/
def MakeDay (year month date : Int) : Int :=
  let ym := year + month / 12
  let mn := month % 12
  DayFromYear ym + dayWithinYearOfMonth mn (DaysInYear ym == 366) + date - 1

/-- ECMAScript `MakeDate(day, time)`. -/
def MakeDate (day time : Int) : Int := day * msPerDay + time

/-- The time value of `new Date(year, monthIndex, day)`: local midnight of that
calendar day.  As the `Date` constructor does, a year from 0 to 99 stands for
1900 + year. -/
def newDate (tz : Int) (year monthIndex day : Int) : Int :=
  let yr := if 0 ≤ year ∧ year ≤ 99 then 1900 + year else year
  MakeDate (MakeDay yr monthIndex day) 0 - tz

/-- The value of `getFullYear()` on a date with time value `t`. -/
def getFullYear (tz : Int) (t : Int) : Int := YearFromTime (t + tz)

/-! ## Special dates -/

/-- One entry of `this.specialDates`. -/
structure SpecialDate where
  id : Int
  name : String
  month : Int
  day : Int
  year : Int
  is_custom : Bool
  deriving DecidableEq, Repr

/-- Source `getNextOccurrence(date)`, with the clock reading `now` as a parameter. -/
def getNextOccurrence (tz : Int) (now : Int) (date : SpecialDate) : Int :=
  let currentYear := getFullYear tz now
  let nextDate := newDate tz currentYear (date.month - 1) date.day
  if nextDate < now then
    newDate tz (currentYear + 1) (date.month - 1) date.day
  else
    nextDate

/-- The object `getNextSpecialDate` builds: the fields of the event (`...event`),
the occurrence `date` and `yearsAgo`. -/
structure NearestEvent where
  event : SpecialDate
  date : Int
  yearsAgo : Int
  deriving DecidableEq, Repr

/-- The test `diff < nearestDiff`; `nearestDiff` is `none` while it still holds its
initial value `Infinity`. -/
def ltNearest (diff : Int) : Option Int → Bool
  | none => true
  | some n => decide (diff < n)

/-- One round of the `forEach` callback of `getNextSpecialDate`, on the pair
(`nearestDiff`, `nearestEvent`). -/
def nearestStep (tz now currentYear : Int) (acc : Option Int × Option NearestEvent)
    (event : SpecialDate) : Option Int × Option NearestEvent :=
  let eventDate := newDate tz currentYear (event.month - 1) event.day
  let eventDate :=
    if eventDate < now then newDate tz (currentYear + 1) (event.month - 1) event.day
    else eventDate
  let diff := eventDate - now
  if ltNearest diff acc.1 then
    (some diff, some ⟨event, eventDate, getFullYear tz eventDate - event.year⟩)
  else acc

/-- Source `getNextSpecialDate()`, with the clock reading `now` as a parameter;
`none` is `null`. -/
def getNextSpecialDate (tz now : Int) (specialDates : List SpecialDate) :
    Option NearestEvent :=
  let currentYear := getFullYear tz now
  (specialDates.foldl (nearestStep tz now currentYear) (none, none)).2

/-- What `nearestStep` stores for an event: its delta and the result object. -/
def nearestEntry (tz now : Int) (e : SpecialDate) : Option Int × Option NearestEvent :=
  (some (getNextOccurrence tz now e - now),
    some ⟨e, getNextOccurrence tz now e,
      getFullYear tz (getNextOccurrence tz now e) - e.year⟩)

/-- Loop invariant of `getNextSpecialDate`: after the records of `r` the pair is
still initial and `r` is empty, or it holds the entry of the first record of
minimal delta. -/
def NearestInv (tz now : Int) (r : List SpecialDate)
    (st : Option Int × Option NearestEvent) : Prop :=
  (r = [] ∧ st = (none, none)) ∨
  ∃ i, ∃ hi : i < r.length, st = nearestEntry tz now r[i] ∧
    (∀ j, ∀ hj : j < r.length,
      getNextOccurrence tz now r[i] - now ≤ getNextOccurrence tz now r[j] - now) ∧
    (∀ j, ∀ hj : j < r.length, j < i →
      getNextOccurrence tz now r[i] - now < getNextOccurrence tz now r[j] - now)

/-- A registry of two records that fall on the same day of the year. -/
def tiedDates : List SpecialDate :=
  [⟨1, "First", 9, 29, 2004, false⟩, ⟨2, "Second", 9, 29, 2010, true⟩]

/-! ## The registry of special dates and its operations -/

/-- The values the registry functions return or could return. -/
inductive JsValue where
  | bool (b : Bool)
  | number (n : Int)
  deriving DecidableEq, Repr

/-- What a registry function leaves behind: the value it returns, the toast
`showMessage(text, type)` it shows, the message of the error it passes to
`console.error` (if any), and `this.specialDates` afterwards. -/
structure DateResult where
  ret : JsValue
  toast : String × String
  logged : Option String
  specialDates : List SpecialDate
  deriving DecidableEq, Repr

/-- The array `loadSpecialDates` installs. -/
def loadSpecialDates : List SpecialDate :=
  [ ⟨1, "First Talk Anniversary", 9, 22, 2023, false⟩,
    ⟨2, "Prachi\x27s Birthday", 1, 6, 2004, false⟩,
    ⟨3, "Deep\x27s Birthday", 9, 29, 2004, false⟩,
    ⟨4, "Expressed Feelings Anniversary", 11, 8, 2023, false⟩,
    ⟨5, "Proposal Day Anniversary", 11, 24, 2023, false⟩,
    ⟨6, "First Met Anniversary", 11, 15, 2023, false⟩,
    ⟨7, "First Kiss Anniversary", 5, 5, 2024, false⟩ ]

/-- JavaScript `Array.prototype.findIndex`; `none` stands for the result -1. -/
def findIndex {α : Type} (p : α → Bool) : List α → Option Nat
  | [] => none
  | x :: xs => if p x then some 0 else (findIndex p xs).map (· + 1)

/-- The local `newId` of `addSpecialDate`:
`Math.max(...this.specialDates.map(d => d.id), 0) + 1`. -/
def newId (specialDates : List SpecialDate) : Int :=
  (specialDates.map (·.id)).foldl max 0 + 1

/-- Source `addSpecialDate(name, month, day, year)`. -/
def addSpecialDate (specialDates : List SpecialDate) (name : String)
    (month day year : Int) : DateResult :=
  let newDate : SpecialDate := ⟨newId specialDates, name, month, day, year, true⟩
  ⟨.bool true, ("Special date added successfully!", "success"), none,
    specialDates ++ [newDate]⟩

/-- Source `updateSpecialDate(id, name, month, day, year)`. -/
def updateSpecialDate (specialDates : List SpecialDate) (id : Int) (name : String)
    (month day year : Int) : DateResult :=
  match findIndex (fun d => d.id == id) specialDates with
  | some dateIndex =>
    ⟨.bool true, ("Date updated successfully!", "success"), none,
      specialDates.set dateIndex ⟨id, name, month, day, year, true⟩⟩
  | none =>
    ⟨.bool false, ("Failed to update date. Please try again.", "error"),
      some "Date not found", specialDates⟩

/-- Source `deleteSpecialDate(id)`.  The last branch (an index past the end, where
reading `is_custom` throws a TypeError) is never reached after `findIndex`. -/
def deleteSpecialDate (specialDates : List SpecialDate) (id : Int) : DateResult :=
  match findIndex (fun d => d.id == id) specialDates with
  | some dateIndex =>
    match specialDates[dateIndex]? with
    | some d =>
      if d.is_custom then
        ⟨.bool true, ("Date deleted successfully!", "success"), none,
          specialDates.eraseIdx dateIndex⟩
      else
        ⟨.bool false, ("Cannot delete default dates", "error"),
          some "Cannot delete default dates", specialDates⟩
    | none =>
      ⟨.bool false, ("TypeError", "error"), some "TypeError", specialDates⟩
  | none =>
    ⟨.bool false, ("Date not found", "error"), some "Date not found", specialDates⟩

/-- A user action on the registry. -/
inductive DateOp where
  | add (name : String) (month day year : Int)
  | update (id : Int) (name : String) (month day year : Int)
  | delete (id : Int)
  deriving DecidableEq, Repr

/-- The registry after one action. -/
def applyOp (r : List SpecialDate) : DateOp → List SpecialDate
  | .add name month day year => (addSpecialDate r name month day year).specialDates
  | .update id name month day year =>
    (updateSpecialDate r id name month day year).specialDates
  | .delete id => (deleteSpecialDate r id).specialDates

/-- The registry after a sequence of actions. -/
def runOps (r : List SpecialDate) (ops : List DateOp) : List SpecialDate :=
  ops.foldl applyOp r

/-- The ids `addSpecialDate` hands out during a sequence of actions, in order. -/
def assignedIds (r : List SpecialDate) : List DateOp → List Int
  | [] => []
  | op :: ops =>
    match op with
    | .add _ _ _ _ => newId r :: assignedIds (applyOp r op) ops
    | _ => assignedIds (applyOp r op) ops

/-- No `delete` of the sequence names the id handed out by the latest `add` before
it (`last`; `none` before the first `add`). -/
def sparesLatest (last : Option Int) (r : List SpecialDate) : List DateOp → Bool
  | [] => true
  | op :: ops =>
    match op with
    | .add _ _ _ _ => sparesLatest (some (newId r)) (applyOp r op) ops
    | .update _ _ _ _ _ => sparesLatest last (applyOp r op) ops
    | .delete id => (last != some id) && sparesLatest last (applyOp r op) ops

/-! ## The persisted task list -/

/-- One entry of the task list kept under the key `prachi-tasks`. -/
structure TaskItem where
  text : String
  completed : Bool
  createdAt : String
  deriving DecidableEq, Repr

/-- What `localStorage` holds under a key that stores a list: nothing (`getItem`
gives `null` or the empty string, so `|| \x27[]\x27` applies), a string that
`JSON.parse` rejects, or the JSON text of a list. -/
inductive Stored (α : Type) where
  | absent
  | unparsable
  | parsed (xs : List α)
  deriving DecidableEq, Repr

deriving instance DecidableEq for Except

/-- The expression `JSON.parse(localStorage.getItem(key) || \x27[]\x27)`;
`JSON.parse` throws a SyntaxError on a string that is not JSON. -/
def readList {α : Type} : Stored α → Except String (List α)
  | .absent => .ok []
  | .unparsable => .error "SyntaxError"
  | .parsed xs => .ok xs

/-- The expression `tasks[index]`: `none` is `undefined`. -/
def elementAt {α : Type} (xs : List α) (index : Int) : Option α :=
  if 0 ≤ index then xs[index.toNat]? else none

/-- Source `toggleTask(index)`: the content of the key afterwards, or the error
thrown.  `saveTasks` runs only inside the `if`. -/
def toggleTask (store : Stored TaskItem) (index : Int) : Except String (Stored TaskItem) :=
  match readList store with
  | .error e => .error e
  | .ok tasks =>
    match elementAt tasks index with
    | some task =>
      .ok (.parsed (tasks.set index.toNat { task with completed := !task.completed }))
    | none => .ok store

/-- The characters `String.prototype.trim` strips: ECMAScript WhiteSpace and
LineTerminator code points. -/
def isJsWhitespace (c : Char) : Bool :=
  let n := c.toNat
  n == 0x09 || n == 0x0A || n == 0x0B || n == 0x0C || n == 0x0D || n == 0x20 ||
  n == 0xA0 || n == 0x1680 || (0x2000 ≤ n && n ≤ 0x200A) || n == 0x2028 ||
  n == 0x2029 || n == 0x202F || n == 0x205F || n == 0x3000 || n == 0xFEFF

/-- JavaScript `text.trim()`. -/
def jsTrim (text : String) : String :=
  String.mk ((text.toList.dropWhile isJsWhitespace).reverse.dropWhile isJsWhitespace).reverse

/-- Source `loadTasks()`: the sequence handed to `renderTasks`, or the error thrown. -/
def loadTasks (store : Stored TaskItem) : Except String (List TaskItem) :=
  readList store

/-- Source `addTask(text)`: the content of the key afterwards, or the error thrown.
`createdAt` is the clock reading `new Date().toISOString()`. -/
def addTask (store : Stored TaskItem) (createdAt : String) (text : String) :
    Except String (Stored TaskItem) :=
  if jsTrim text = "" then .ok store
  else
    match readList store with
    | .error e => .error e
    | .ok tasks => .ok (.parsed (tasks ++ [⟨jsTrim text, false, createdAt⟩]))

/-- JavaScript `xs.splice(start, 1)`, the array afterwards: a negative `start`
counts from the end (`max(length + start, 0)`), another one is capped at the
length, and one element is removed there if there is one. -/
def splice1 {α : Type} (xs : List α) (start : Int) : List α :=
  let len : Int := xs.length
  let actualStart := if start < 0 then max (len + start) 0 else min start len
  xs.eraseIdx actualStart.toNat

/-- Source `deleteTask(index)`: the content of the key afterwards, or the error
thrown. -/
def deleteTask (store : Stored TaskItem) (index : Int) : Except String (Stored TaskItem) :=
  match readList store with
  | .error e => .error e
  | .ok tasks => .ok (.parsed (splice1 tasks index))

/-! ## The photo gallery -/

/-- What `localStorage` holds under the key `prachi-current-bg`: nothing (so
`|| 0` applies), a string `parseInt` turns into `NaN`, or a string `parseInt`
reads as the integer `n`. -/
inductive StoredIndex where
  | absent
  | notNumber
  | number (n : Int)
  deriving DecidableEq, Repr

/-- The state of the photo functions: the keys `prachi-bg-images` and
`prachi-current-bg`, and the fields `this.currentImageIndex` (`none` is `NaN`) and
`this.backgroundImages`. -/
structure Gallery where
  savedImages : Stored String
  savedIndex : StoredIndex
  currentImageIndex : Option Int
  backgroundImages : List String
  deriving DecidableEq, Repr

/-- What a photo function leaves behind: the toast it shows (if any) and the state. -/
structure PhotoResult where
  toast : Option (String × String)
  gallery : Gallery
  deriving DecidableEq, Repr

/-- The array the constructor puts in `this.backgroundImages`. -/
def backgroundImages : List String :=
  [ "https://images.unsplash.com/photo-1518199266791-5375a83190b7?ixlib=rb-4.0.3&auto=format&fit=crop&w=2070&q=80",
    "https://images.unsplash.com/photo-1469474968028-56623f02e42e?ixlib=rb-4.0.3&auto=format&fit=crop&w=2070&q=80",
    "https://images.unsplash.com/photo-1507003211169-0a1dd7228f2d?ixlib=rb-4.0.3&auto=format&fit=crop&w=2070&q=80" ]

/-- JavaScript `a % n` for an array length `n`: `NaN` when `a` is `NaN` or `n` is
0, otherwise the remainder with the sign of `a`. -/
def jsMod (a : Option Int) (n : Nat) : Option Int :=
  match a with
  | none => none
  | some x => if n = 0 then none else some (Int.tmod x n)

/-- The expression `parseInt(localStorage.getItem(key) || 0)`. -/
def readIndex : StoredIndex → Option Int
  | .absent => some 0
  | .notNumber => none
  | .number n => some n

/-- The content of the key after `localStorage.setItem(key, this.currentImageIndex)`. -/
def writeIndex : Option Int → StoredIndex
  | none => .notNumber
  | some n => .number n

/-- Source `setBackground()`: `this.currentImageIndex` afterwards, or the error
thrown. -/
def setBackground (g : Gallery) : Except String (Option Int) :=
  match readList g.savedImages with
  | .error e => .error e
  | .ok savedImages =>
    let allImages := savedImages ++ g.backgroundImages
    if allImages.length > 0 then
      .ok (jsMod (readIndex g.savedIndex) allImages.length)
    else .ok g.currentImageIndex

/-- Source `nextBackground()`. -/
def nextBackground (g : Gallery) : Except String Gallery :=
  match readList g.savedImages with
  | .error e => .error e
  | .ok savedImages =>
    let allImages := savedImages ++ g.backgroundImages
    let idx := jsMod (g.currentImageIndex.map (· + 1)) allImages.length
    .ok { g with currentImageIndex := idx, savedIndex := writeIndex idx }

/-- Source `prevBackground()`. -/
def prevBackground (g : Gallery) : Except String Gallery :=
  match readList g.savedImages with
  | .error e => .error e
  | .ok savedImages =>
    let allImages := savedImages ++ g.backgroundImages
    let idx : Option Int :=
      if g.currentImageIndex = some 0 then some ((allImages.length : Int) - 1)
      else g.currentImageIndex.map (· - 1)
    .ok { g with currentImageIndex := idx, savedIndex := writeIndex idx }

/-- The test `this.currentImageIndex < n`, false on `NaN`. -/
def indexLt (a : Option Int) (n : Nat) : Bool :=
  match a with
  | none => false
  | some x => decide (x < n)

/-- Source `deleteCurrentPhoto()`. -/
def deleteCurrentPhoto (g : Gallery) : Except String PhotoResult :=
  match readList g.savedImages with
  | .error e => .error e
  | .ok savedImages =>
    let allImages := savedImages ++ g.backgroundImages
    if allImages.length ≤ 1 then
      .ok ⟨some ("Cannot delete the last photo!", "error"), g⟩
    else
      match g.currentImageIndex with
      | some cur =>
        if cur < savedImages.length then
          let savedImages := splice1 savedImages cur
          let newAllImages := savedImages ++ g.backgroundImages
          let idx : Int := if cur ≥ newAllImages.length then 0 else cur
          .ok ⟨some ("Photo deleted successfully!", "success"),
            { g with savedImages := .parsed savedImages, currentImageIndex := some idx,
                     savedIndex := .number idx }⟩
        else
          .ok ⟨some ("Cannot delete default photos. Only uploaded photos can be deleted.",
            "error"), g⟩
      | none =>
        .ok ⟨some ("Cannot delete default photos. Only uploaded photos can be deleted.",
          "error"), g⟩

/-- The `reader.onload` callback of source `uploadPhoto(file)`, `imageUrl` being
the data URL read from the file. -/
def uploadPhoto (g : Gallery) (imageUrl : String) : Except String PhotoResult :=
  match readList g.savedImages with
  | .error e => .error e
  | .ok savedImages =>
    let savedImages := savedImages ++ [imageUrl]
    let idx : Int := (savedImages.length : Int) - 1
    .ok ⟨some ("Photo uploaded successfully!", "success"),
      { g with savedImages := .parsed savedImages, currentImageIndex := some idx,
               savedIndex := .number idx }⟩

/-- The view index is a number `v` with `0 ≤ v < uploaded.length +
backgroundImages.length`, for the uploaded list the key holds. -/
def cursorInRange (g : Gallery) : Bool :=
  match readList g.savedImages, g.currentImageIndex with
  | .ok uploaded, some v =>
    decide (0 ≤ v ∧ v < (uploaded.length : Int) + g.backgroundImages.length)
  | _, _ => false

/-! ## The countdown -/

/-- What `updateCountdown` writes into the page. -/
structure Countdown where
  days : Int
  hours : Int
  minutes : Int
  seconds : Int
  name : String
  date : Int
  deriving DecidableEq, Repr

/-- Source `updateCountdown()`: what is rendered, `none` when the function returns
before rendering.  The clock is read twice: `now₁` inside `getNextSpecialDate`,
`now₂` in `updateCountdown` itself.  `%` is the JavaScript remainder and
`Math.floor` of a quotient by a positive constant is integer floor division. -/
def updateCountdown (tz now₁ now₂ : Int) (specialDates : List SpecialDate) :
    Option Countdown :=
  match getNextSpecialDate tz now₁ specialDates with
  | none => none
  | some nextEvent =>
    let timeDiff := nextEvent.date - now₂
    if timeDiff ≤ 0 then none
    else
      let days := timeDiff / (1000 * 60 * 60 * 24)
      let hours := (Int.tmod timeDiff (1000 * 60 * 60 * 24)) / (1000 * 60 * 60)
      let minutes := (Int.tmod timeDiff (1000 * 60 * 60)) / (1000 * 60)
      let seconds := (Int.tmod timeDiff (1000 * 60)) / 1000
      some ⟨days, hours, minutes, seconds, nextEvent.event.name, nextEvent.date⟩

/-! ## Time arithmetic lemmas -/

theorem DayFromYear_succ (y : Int) :
    DayFromYear (y + 1) = DayFromYear y + DaysInYear y := by
  unfold DayFromYear DaysInYear
  split_ifs <;> omega

theorem DaysInYear_pos (y : Int) : 365 ≤ DaysInYear y := by
  unfold DaysInYear
  split_ifs <;> omega

theorem DayFromYear_lt_succ (y : Int) : DayFromYear y < DayFromYear (y + 1) := by
  have := DaysInYear_pos y
  rw [DayFromYear_succ]; omega

theorem DayFromYear_mono {a b : Int} (h : a ≤ b) : DayFromYear a ≤ DayFromYear b := by
  unfold DayFromYear
  omega

/-- The estimate in `YearFromTime` is at most one year off. -/
theorem year_estimate_bounds (d : Int) :
    DayFromYear (1970 + (400 * d) / 146097 - 1) ≤ d ∧
      d < DayFromYear (1970 + (400 * d) / 146097 + 2) := by
  unfold DayFromYear
  omega

/-- The year `YearFromTime` returns contains the instant. -/
theorem YearFromTime_bounds (t : Int) :
    TimeFromYear (YearFromTime t) ≤ t ∧ t < TimeFromYear (YearFromTime t + 1) := by
  have hb := year_estimate_bounds (Day t)
  have hd : Day t * msPerDay ≤ t ∧ t < (Day t + 1) * msPerDay := by
    unfold Day msPerDay; omega
  have key : DayFromYear (YearFromTime t) ≤ Day t ∧ Day t < DayFromYear (YearFromTime t + 1) := by
    unfold YearFromTime
    simp only []
    split_ifs with h1 h2
    · refine ⟨h1, ?_⟩
      have : 1970 + 400 * Day t / 146097 + 1 + 1 = 1970 + 400 * Day t / 146097 + 2 := by ring
      rw [this]; exact hb.2
    · exact ⟨h2, by omega⟩
    · refine ⟨hb.1, ?_⟩
      have : 1970 + 400 * Day t / 146097 - 1 + 1 = 1970 + 400 * Day t / 146097 := by ring
      rw [this]; omega
  unfold TimeFromYear
  unfold msPerDay at hd ⊢
  omega

/-- `YearFromTime t` is the largest year starting at or before `t`. -/
theorem YearFromTime_spec (t y : Int) :
    YearFromTime t = y ↔ TimeFromYear y ≤ t ∧ t < TimeFromYear (y + 1) := by
  constructor
  · rintro rfl; exact YearFromTime_bounds t
  · rintro ⟨h1, h2⟩
    have hb := YearFromTime_bounds t
    unfold TimeFromYear msPerDay at *
    by_contra hne
    rcases lt_or_gt_of_ne hne with h | h
    · have := DayFromYear_mono (show YearFromTime t + 1 ≤ y by omega)
      omega
    · have := DayFromYear_mono (show y + 1 ≤ YearFromTime t by omega)
      omega

theorem dayWithinYearOfMonth_nonneg (mn : Int) (leap : Bool) :
    0 ≤ dayWithinYearOfMonth mn leap := by
  unfold dayWithinYearOfMonth
  exact Int.ofNat_nonneg _

/-- A date built in year `y` from a month index in 0..11 and a day of at least 1
is not before the start of year `y` (in local time). -/
theorem newDate_ge_year_start (tz y mi day : Int) (hmi : 0 ≤ mi ∧ mi ≤ 11) (hday : 1 ≤ day) :
    TimeFromYear y ≤ newDate tz y mi day + tz := by
  have hoff := dayWithinYearOfMonth_nonneg (mi % 12)
  unfold newDate MakeDate MakeDay TimeFromYear
  simp only []
  have hq : mi / 12 = 0 := by omega
  rw [hq]
  split_ifs with h
  · have hmono := DayFromYear_mono (show y ≤ 1900 + y + 0 by omega)
    have := hoff (DaysInYear (1900 + y + 0) == 366)
    unfold msPerDay; omega
  · have := hoff (DaysInYear (y + 0) == 366)
    simp only [add_zero] at this ⊢
    unfold msPerDay; omega

/-- C1. For every special date with month in 1..12 and day in 1..31 and every
instant `now`, `getNextOccurrence` is at or after `now`; it is this year's date
exactly when that candidate is at or after `now`, and next year's date otherwise. -/
theorem getNextOccurrence_correct (tz now : Int) (d : SpecialDate)
    (hm : 1 ≤ d.month ∧ d.month ≤ 12) (hd : 1 ≤ d.day ∧ d.day ≤ 31) :
    now ≤ getNextOccurrence tz now d ∧
    (getNextOccurrence tz now d = newDate tz (getFullYear tz now) (d.month - 1) d.day ↔
      now ≤ newDate tz (getFullYear tz now) (d.month - 1) d.day) ∧
    (¬ now ≤ newDate tz (getFullYear tz now) (d.month - 1) d.day →
      getNextOccurrence tz now d =
        newDate tz (getFullYear tz now + 1) (d.month - 1) d.day) := by
  have hnext := newDate_ge_year_start tz (getFullYear tz now + 1) (d.month - 1) d.day
    (by omega) hd.1
  have hyear := (YearFromTime_bounds (now + tz)).2
  have hlt : now < newDate tz (getFullYear tz now + 1) (d.month - 1) d.day := by
    unfold getFullYear at hnext ⊢
    omega
  unfold getNextOccurrence
  simp only []
  split_ifs with h
  · refine ⟨le_of_lt hlt, ⟨fun e => ?_, fun e => ?_⟩, fun _ => rfl⟩ <;> omega
  · exact ⟨by omega, ⟨fun _ => by omega, fun _ => rfl⟩, fun e => absurd (by omega) e⟩

/-- Witness for `getNextOccurrence_correct`: 29 September, asked at the epoch
instant 1 700 000 000 000 (14 November 2023 UTC); the next occurrence is
29 September 2024. -/
theorem getNextOccurrence_correct_witness :
    (1700000000000 : Int) ≤ getNextOccurrence 0 1700000000000 ⟨3, "Birthday", 9, 29, 2004, false⟩ ∧
    getNextOccurrence 0 1700000000000 ⟨3, "Birthday", 9, 29, 2004, false⟩ = 1727568000000 :=
  ⟨(getNextOccurrence_correct 0 1700000000000 ⟨3, "Birthday", 9, 29, 2004, false⟩
      (by decide) (by decide)).1, by decide⟩

/-! ## Nearest upcoming date -/

theorem nearestStep_eq (tz now : Int) (acc : Option Int × Option NearestEvent)
    (e : SpecialDate) :
    nearestStep tz now (getFullYear tz now) acc e =
      if ltNearest (getNextOccurrence tz now e - now) acc.1 then nearestEntry tz now e
      else acc := by
  have hocc : (if newDate tz (getFullYear tz now) (e.month - 1) e.day < now then
      newDate tz (getFullYear tz now + 1) (e.month - 1) e.day
      else newDate tz (getFullYear tz now) (e.month - 1) e.day) =
      getNextOccurrence tz now e := rfl
  unfold nearestStep nearestEntry
  simp only [hocc]

theorem nearest_fold_inv (tz now : Int) (r : List SpecialDate) :
    NearestInv tz now r
      (r.foldl (nearestStep tz now (getFullYear tz now)) (none, none)) := by
  induction r using List.reverseRecOn with
  | nil => exact Or.inl ⟨rfl, rfl⟩
  | append_singleton pre x ih =>
    rw [List.foldl_append, List.foldl_cons, List.foldl_nil, nearestStep_eq]
    right
    rcases ih with ⟨hnil, hst⟩ | ⟨i, hi, hst, hmin, hfirst⟩
    · subst hnil
      rw [hst]
      refine ⟨0, by simp, ?_, ?_, ?_⟩
      · simp [ltNearest]
      · intro j hj
        have : j = 0 := by simpa using hj
        subst this; simp
      · intro j hj hlt; omega
    · rw [hst]
      have hlen : (pre ++ [x]).length = pre.length + 1 := by simp
      by_cases hx : getNextOccurrence tz now x - now < getNextOccurrence tz now pre[i] - now
      · refine ⟨pre.length, by omega, ?_, ?_, ?_⟩
        · simp [nearestEntry, ltNearest, hx]
        · intro j hj
          rcases Nat.lt_or_ge j pre.length with hjl | hjl
          · have := hmin j hjl
            simp only [List.getElem_append_right (le_refl pre.length),
              List.getElem_append_left hjl, Nat.sub_self, List.getElem_cons_zero]
            omega
          · have hje : j = pre.length := by omega
            subst hje; exact le_refl _
        · intro j hj hjl
          have := hmin j hjl
          simp only [List.getElem_append_right (le_refl pre.length),
            List.getElem_append_left hjl, Nat.sub_self, List.getElem_cons_zero]
          omega
      · refine ⟨i, by omega, ?_, ?_, ?_⟩
        · have : ltNearest (getNextOccurrence tz now x - now)
              (nearestEntry tz now pre[i]).1 = false := by
            simp [nearestEntry, ltNearest]; omega
          rw [this]; simp [List.getElem_append_left hi]
        · intro j hj
          simp only [List.getElem_append_left hi]
          rcases Nat.lt_or_ge j pre.length with hjl | hjl
          · simpa only [List.getElem_append_left hjl] using hmin j hjl
          · have hje : j = pre.length := by omega
            subst hje
            simp only [List.getElem_append_right (le_refl pre.length), Nat.sub_self,
              List.getElem_cons_zero]
            omega
        · intro j hj hji
          have hjl : j < pre.length := by omega
          simpa only [List.getElem_append_left hi, List.getElem_append_left hjl]
            using hfirst j hjl hji

/-- C2. `getNextSpecialDate` returns `null` on an empty registry; on any other it
returns the record at some position `i`, with its next occurrence and the years
since its original year, such that no record has a smaller delta from `now` and
every record before position `i` has a strictly larger one (the earliest record
wins a tie). -/
theorem getNextSpecialDate_nearest (tz now : Int) (r : List SpecialDate) :
    getNextSpecialDate tz now [] = none ∧
    (r ≠ [] → ∃ i, ∃ hi : i < r.length,
      getNextSpecialDate tz now r =
        some ⟨r[i], getNextOccurrence tz now r[i],
          getFullYear tz (getNextOccurrence tz now r[i]) - r[i].year⟩ ∧
      (∀ j, ∀ hj : j < r.length,
        getNextOccurrence tz now r[i] - now ≤ getNextOccurrence tz now r[j] - now) ∧
      (∀ j, ∀ hj : j < r.length, j < i →
        getNextOccurrence tz now r[i] - now < getNextOccurrence tz now r[j] - now)) := by
  refine ⟨rfl, fun hne => ?_⟩
  rcases nearest_fold_inv tz now r with ⟨hnil, _⟩ | ⟨i, hi, hst, hmin, hfirst⟩
  · exact absurd hnil hne
  · refine ⟨i, hi, ?_, hmin, hfirst⟩
    unfold getNextSpecialDate
    simp only [hst, nearestEntry]

/-- Witness for `getNextSpecialDate_nearest`: two records on the same day, asked
on 14 November 2023 (UTC); the first one is returned, for 29 September 2024. -/
theorem getNextSpecialDate_nearest_witness :
    getNextSpecialDate 0 1700000000000 tiedDates =
        some ⟨⟨1, "First", 9, 29, 2004, false⟩, 1727568000000, 20⟩ ∧
    ∃ i, ∃ hi : i < tiedDates.length,
      getNextSpecialDate 0 1700000000000 tiedDates =
        some ⟨tiedDates[i], getNextOccurrence 0 1700000000000 tiedDates[i],
          getFullYear 0 (getNextOccurrence 0 1700000000000 tiedDates[i]) - tiedDates[i].year⟩ ∧
      (∀ j, ∀ hj : j < tiedDates.length,
        getNextOccurrence 0 1700000000000 tiedDates[i] - 1700000000000 ≤
          getNextOccurrence 0 1700000000000 tiedDates[j] - 1700000000000) ∧
      (∀ j, ∀ hj : j < tiedDates.length, j < i →
        getNextOccurrence 0 1700000000000 tiedDates[i] - 1700000000000 <
          getNextOccurrence 0 1700000000000 tiedDates[j] - 1700000000000) :=
  ⟨by decide, (getNextSpecialDate_nearest 0 1700000000000 tiedDates).2 (by decide)⟩

/-! ## Registry lemmas -/

theorem findIndex_eq_none {α : Type} (p : α → Bool) (l : List α) :
    findIndex p l = none ↔ ∀ x ∈ l, p x = false := by
  induction l with
  | nil => simp [findIndex]
  | cons x xs ih =>
    unfold findIndex
    by_cases hx : p x = true
    · simp [hx]
    · simp only [hx, Bool.false_eq_true, if_false, Option.map_eq_none', ih,
        List.mem_cons, forall_eq_or_imp]
      simp [hx]

theorem findIndex_split_of_some {α : Type} (p : α → Bool) (l : List α) (i : Nat)
    (h : findIndex p l = some i) :
    ∃ l₁ d l₂, l = l₁ ++ d :: l₂ ∧ l₁.length = i ∧ p d = true ∧ ∀ e ∈ l₁, p e = false := by
  induction l generalizing i with
  | nil => simp [findIndex] at h
  | cons x xs ih =>
    unfold findIndex at h
    by_cases hx : p x = true
    · simp only [hx, if_true, Option.some.injEq] at h
      exact ⟨[], x, xs, rfl, by simpa using h, hx, by simp⟩
    · simp only [hx, Bool.false_eq_true, if_false, Option.map_eq_some'] at h
      obtain ⟨k, hk, rfl⟩ := h
      obtain ⟨l₁, d, l₂, hl, hlen, hd, hpre⟩ := ih k hk
      refine ⟨x :: l₁, d, l₂, by simp [hl], by simp [hlen], hd, ?_⟩
      intro e he
      rcases List.mem_cons.1 he with rfl | he
      · simpa using hx
      · exact hpre e he

theorem findIndex_of_split {α : Type} (p : α → Bool) (l₁ : List α) (d : α) (l₂ : List α)
    (hd : p d = true) (hpre : ∀ e ∈ l₁, p e = false) :
    findIndex p (l₁ ++ d :: l₂) = some l₁.length := by
  induction l₁ with
  | nil => simp [findIndex, hd]
  | cons x xs ih =>
    have hx : p x = false := hpre x (List.mem_cons_self _ _)
    have := ih (fun e he => hpre e (List.mem_cons_of_mem _ he))
    simp [findIndex, hx, this]

/-- Every accumulator of `Math.max` is at least its start value and each argument. -/
theorem foldl_max_ge (l : List Int) (init : Int) :
    init ≤ l.foldl max init ∧ ∀ x ∈ l, x ≤ l.foldl max init := by
  induction l generalizing init with
  | nil => simp
  | cons a as ih =>
    simp only [List.foldl_cons, List.mem_cons, forall_eq_or_imp]
    have h := ih (max init a)
    exact ⟨le_trans (le_max_left _ _) h.1, le_trans (le_max_right _ _) h.1, h.2⟩

/-- The accumulator of `Math.max` is its start value or one of the arguments. -/
theorem foldl_max_mem (l : List Int) (init : Int) :
    l.foldl max init = init ∨ l.foldl max init ∈ l := by
  induction l generalizing init with
  | nil => simp
  | cons a as ih =>
    simp only [List.foldl_cons, List.mem_cons]
    rcases ih (max init a) with h | h
    · rcases max_choice init a with hm | hm
      · left; rw [h, hm]
      · right; left; rw [h, hm]
    · right; right; exact h

theorem lt_newId (r : List SpecialDate) (d : SpecialDate) (hd : d ∈ r) :
    d.id < newId r := by
  have := (foldl_max_ge (r.map (·.id)) 0).2 d.id (List.mem_map_of_mem _ hd)
  unfold newId; omega

theorem newId_pos (r : List SpecialDate) : 1 ≤ newId r := by
  have := (foldl_max_ge (r.map (·.id)) 0).1
  unfold newId; omega

theorem set_at_split {α : Type} (l₁ : List α) (d x : α) (l₂ : List α) :
    (l₁ ++ d :: l₂).set l₁.length x = l₁ ++ x :: l₂ := by
  induction l₁ with
  | nil => rfl
  | cons a as ih => simp [List.set, ih]

theorem eraseIdx_at_split {α : Type} (l₁ : List α) (d : α) (l₂ : List α) :
    (l₁ ++ d :: l₂).eraseIdx l₁.length = l₁ ++ l₂ := by
  induction l₁ with
  | nil => rfl
  | cons a as ih => simp [List.eraseIdx, ih]

theorem getElem?_at_split {α : Type} (l₁ : List α) (d : α) (l₂ : List α) :
    (l₁ ++ d :: l₂)[l₁.length]? = some d := by
  induction l₁ with
  | nil => simp
  | cons a as ih => simpa using ih

/-- A registry either has no record with the id, or splits at the first one. -/
theorem registry_split (r : List SpecialDate) (id : Int) :
    (∀ e ∈ r, e.id ≠ id) ∨
    ∃ l₁ d l₂, r = l₁ ++ d :: l₂ ∧ d.id = id ∧ ∀ e ∈ l₁, e.id ≠ id := by
  cases h : findIndex (fun d => d.id == id) r with
  | none =>
    left
    intro e he
    have := (findIndex_eq_none _ r).1 h e he
    simpa using this
  | some i =>
    right
    obtain ⟨l₁, d, l₂, hl, _, hd, hpre⟩ := findIndex_split_of_some _ r i h
    refine ⟨l₁, d, l₂, hl, by simpa using hd, fun e he => ?_⟩
    simpa using hpre e he

theorem findIndex_id_split (l₁ : List SpecialDate) (d : SpecialDate) (l₂ : List SpecialDate)
    (id : Int) (hd : d.id = id) (hpre : ∀ e ∈ l₁, e.id ≠ id) :
    findIndex (fun e => e.id == id) (l₁ ++ d :: l₂) = some l₁.length :=
  findIndex_of_split _ l₁ d l₂ (by simpa using hd) (fun e he => by simpa using hpre e he)

theorem findIndex_id_absent (r : List SpecialDate) (id : Int) (h : ∀ e ∈ r, e.id ≠ id) :
    findIndex (fun e => e.id == id) r = none :=
  (findIndex_eq_none _ r).2 (fun e he => by simpa using h e he)

theorem updateSpecialDate_at_split (l₁ : List SpecialDate) (d : SpecialDate)
    (l₂ : List SpecialDate) (id : Int) (name : String) (month day year : Int)
    (hd : d.id = id) (hpre : ∀ e ∈ l₁, e.id ≠ id) :
    updateSpecialDate (l₁ ++ d :: l₂) id name month day year =
      ⟨.bool true, ("Date updated successfully!", "success"), none,
        l₁ ++ ⟨id, name, month, day, year, true⟩ :: l₂⟩ := by
  unfold updateSpecialDate
  rw [findIndex_id_split l₁ d l₂ id hd hpre]
  simp only [set_at_split]

theorem updateSpecialDate_absent (r : List SpecialDate) (id : Int) (name : String)
    (month day year : Int) (h : ∀ e ∈ r, e.id ≠ id) :
    updateSpecialDate r id name month day year =
      ⟨.bool false, ("Failed to update date. Please try again.", "error"),
        some "Date not found", r⟩ := by
  unfold updateSpecialDate
  rw [findIndex_id_absent r id h]

theorem deleteSpecialDate_at_split (l₁ : List SpecialDate) (d : SpecialDate)
    (l₂ : List SpecialDate) (id : Int) (hd : d.id = id) (hpre : ∀ e ∈ l₁, e.id ≠ id) :
    deleteSpecialDate (l₁ ++ d :: l₂) id =
      if d.is_custom then
        ⟨.bool true, ("Date deleted successfully!", "success"), none, l₁ ++ l₂⟩
      else
        ⟨.bool false, ("Cannot delete default dates", "error"),
          some "Cannot delete default dates", l₁ ++ d :: l₂⟩ := by
  unfold deleteSpecialDate
  rw [findIndex_id_split l₁ d l₂ id hd hpre]
  simp only [getElem?_at_split, eraseIdx_at_split]

theorem deleteSpecialDate_absent (r : List SpecialDate) (id : Int)
    (h : ∀ e ∈ r, e.id ≠ id) :
    deleteSpecialDate r id =
      ⟨.bool false, ("Date not found", "error"), some "Date not found", r⟩ := by
  unfold deleteSpecialDate
  rw [findIndex_id_absent r id h]

theorem ids_updateSpecialDate (r : List SpecialDate) (id : Int) (name : String)
    (month day year : Int) :
    (updateSpecialDate r id name month day year).specialDates.map (·.id) = r.map (·.id) := by
  rcases registry_split r id with h | ⟨l₁, d, l₂, rfl, hd, hpre⟩
  · rw [updateSpecialDate_absent r id name month day year h]
  · rw [updateSpecialDate_at_split l₁ d l₂ id name month day year hd hpre]
    simp [hd]

theorem deleteSpecialDate_sublist (r : List SpecialDate) (id : Int) :
    (deleteSpecialDate r id).specialDates.Sublist r := by
  rcases registry_split r id with h | ⟨l₁, d, l₂, rfl, hd, hpre⟩
  · rw [deleteSpecialDate_absent r id h]
  · rw [deleteSpecialDate_at_split l₁ d l₂ id hd hpre]
    split_ifs
    · exact List.Sublist.append_left (List.sublist_cons_self d l₂) l₁
    · exact List.Sublist.refl _

/-- Deleting by an id keeps every record that carries another id. -/
theorem deleteSpecialDate_keeps (r : List SpecialDate) (id p : Int) (hp : p ≠ id)
    (h : ∃ d ∈ r, d.id = p) : ∃ d ∈ (deleteSpecialDate r id).specialDates, d.id = p := by
  rcases registry_split r id with ha | ⟨l₁, d, l₂, rfl, hd, hpre⟩
  · rw [deleteSpecialDate_absent r id ha]; exact h
  · rw [deleteSpecialDate_at_split l₁ d l₂ id hd hpre]
    split_ifs
    · obtain ⟨e, he, hep⟩ := h
      refine ⟨e, ?_, hep⟩
      rcases List.mem_append.1 he with h1 | h2
      · exact List.mem_append.2 (Or.inl h1)
      · rcases List.mem_cons.1 h2 with rfl | h3
        · exact absurd (hep.symm.trans hd) hp
        · exact List.mem_append.2 (Or.inr h3)
    · exact h

theorem exists_id_iff_mem_ids (r : List SpecialDate) (p : Int) :
    (∃ d ∈ r, d.id = p) ↔ p ∈ r.map (·.id) := by
  simp [List.mem_map]

theorem applyOp_ids_nodup (r : List SpecialDate) (op : DateOp)
    (h : (r.map (·.id)).Nodup) : ((applyOp r op).map (·.id)).Nodup := by
  cases op with
  | add name month day year =>
    simp only [applyOp, addSpecialDate, List.map_append, List.map_cons, List.map_nil]
    refine List.Nodup.append h (List.nodup_singleton _) ?_
    intro x hx hx2
    rw [List.mem_singleton] at hx2
    obtain ⟨d, hd, rfl⟩ := List.mem_map.1 hx
    have := lt_newId r d hd
    omega
  | update id name month day year =>
    simp only [applyOp, ids_updateSpecialDate]; exact h
  | delete id =>
    exact List.Nodup.sublist ((deleteSpecialDate_sublist r id).map _) h

theorem runOps_ids_nodup (ops : List DateOp) (r : List SpecialDate)
    (h : (r.map (·.id)).Nodup) : ((runOps r ops).map (·.id)).Nodup := by
  induction ops generalizing r with
  | nil => exact h
  | cons op ops ih => exact ih (applyOp r op) (applyOp_ids_nodup r op h)

/-- Strengthened form of the claim on assigned ids: with the id `last` of the latest
`add` still in the registry, the ids handed out next increase strictly and all
exceed `last`. -/
theorem assignedIds_chain (ops : List DateOp) (r : List SpecialDate) (last : Option Int)
    (hlast : ∀ p, last = some p → ∃ d ∈ r, d.id = p)
    (h : sparesLatest last r ops = true) :
    (assignedIds r ops).Pairwise (· < ·) ∧
      ∀ x ∈ assignedIds r ops, ∀ p, last = some p → p < x := by
  induction ops generalizing r last with
  | nil => simp [assignedIds]
  | cons op ops ih =>
    cases op with
    | add name month day year =>
      simp only [sparesLatest] at h
      simp only [assignedIds]
      have hnew : ∀ p, some (newId r) = some p →
          ∃ d ∈ applyOp r (.add name month day year), d.id = p := by
        intro p hp
        simp only [Option.some.injEq] at hp
        subst hp
        exact ⟨⟨newId r, name, month, day, year, true⟩, by simp [applyOp, addSpecialDate], rfl⟩
      obtain ⟨hpw, hbound⟩ := ih _ _ hnew h
      refine ⟨List.pairwise_cons.2 ⟨fun x hx => hbound x hx _ rfl, hpw⟩, ?_⟩
      intro x hx p hp
      obtain ⟨d, hd, hdp⟩ := hlast p hp
      have hlt := lt_newId r d hd
      rcases List.mem_cons.1 hx with rfl | hx
      · omega
      · have := hbound x hx _ rfl
        omega
    | update id name month day year =>
      simp only [sparesLatest] at h
      simp only [assignedIds]
      refine ih _ _ (fun p hp => ?_) h
      rw [exists_id_iff_mem_ids]
      simp only [applyOp, ids_updateSpecialDate]
      exact (exists_id_iff_mem_ids r p).1 (hlast p hp)
    | delete id =>
      simp only [sparesLatest, Bool.and_eq_true, bne_iff_ne, ne_eq] at h
      simp only [assignedIds]
      refine ih _ _ (fun p hp => ?_) h.2
      have hne : p ≠ id := by
        rintro rfl
        exact h.1 hp
      exact deleteSpecialDate_keeps r id p hne (hlast p hp)

theorem find?_id_at_split (l₁ : List SpecialDate) (d : SpecialDate) (l₂ : List SpecialDate)
    (id : Int) (hd : d.id = id) (hpre : ∀ e ∈ l₁, e.id ≠ id) :
    (l₁ ++ d :: l₂).find? (fun e => e.id == id) = some d := by
  induction l₁ with
  | nil => simp [List.find?, hd]
  | cons a as ih =>
    have ha : (a.id == id) = false := by
      simpa using hpre a (List.mem_cons_self _ _)
    have := ih (fun e he => hpre e (List.mem_cons_of_mem _ he))
    rw [List.cons_append, List.find?_cons, ha]
    exact this

/-! ## The claims on the registry operations -/

/-- C3, as stated, fails: on the empty registry `addSpecialDate` returns the
boolean `true`, not the new id 1. -/
theorem addSpecialDate_returns_flag_not_id :
    (addSpecialDate [] "Trip" 3 14 2025).ret = JsValue.bool true ∧
    (addSpecialDate [] "Trip" 3 14 2025).ret ≠ JsValue.number (newId []) := by
  decide

/-- C3, amended. `addSpecialDate` returns `true`; the registry afterwards is the old
one followed by one record with the given name, month, day and year,
`is_custom = true` and the id `newId`, which is 1 on the empty registry and in
general one more than the maximum of 0 and the ids present. -/
theorem addSpecialDate_appends (r : List SpecialDate) (name : String)
    (month day year : Int) :
    (addSpecialDate r name month day year).ret = JsValue.bool true ∧
    (addSpecialDate r name month day year).specialDates =
      r ++ [⟨newId r, name, month, day, year, true⟩] ∧
    newId [] = 1 ∧
    0 ≤ newId r - 1 ∧ (∀ d ∈ r, d.id ≤ newId r - 1) ∧
    (newId r - 1 = 0 ∨ ∃ d ∈ r, d.id = newId r - 1) := by
  refine ⟨rfl, rfl, rfl, ?_, ?_, ?_⟩
  · have := newId_pos r; omega
  · intro d hd
    have := lt_newId r d hd; omega
  · rcases foldl_max_mem (r.map (·.id)) 0 with h | h
    · left; unfold newId; omega
    · right
      obtain ⟨d, hd, hid⟩ := List.mem_map.1 h
      exact ⟨d, hd, by unfold newId; omega⟩

/-- C4, as stated, fails: from the seeded registry, add, delete the record just
added (id 8), add again: the second `add` hands out 8 a second time. -/
theorem assignedIds_reused_after_delete :
    assignedIds loadSpecialDates
        [.add "Trip" 3 14 2025, .delete 8, .add "Concert" 6 1 2025] = [8, 8] ∧
    ¬ (assignedIds loadSpecialDates
        [.add "Trip" 3 14 2025, .delete 8, .add "Concert" 6 1 2025]).Pairwise (· < ·) := by
  decide

/-- C4, amended. Over any sequence of add, update and delete actions in which no
delete names the id handed out by the latest add before it, the ids handed out by
successive adds increase strictly. -/
theorem assignedIds_increasing (r : List SpecialDate) (ops : List DateOp)
    (h : sparesLatest none r ops = true) :
    (assignedIds r ops).Pairwise (· < ·) :=
  (assignedIds_chain ops r none (fun _ hp => by simp at hp) h).1

/-- Witness for `assignedIds_increasing`: adds with a refused delete of a built-in
and a delete of an older custom record in between hand out 8, 9, 10. -/
theorem assignedIds_increasing_witness :
    assignedIds loadSpecialDates
        [.add "Trip" 3 14 2025, .delete 3, .add "Concert" 6 1 2025, .delete 8,
          .add "Move" 7 2 2025] = [8, 9, 10] ∧
    (assignedIds loadSpecialDates
        [.add "Trip" 3 14 2025, .delete 3, .add "Concert" 6 1 2025, .delete 8,
          .add "Move" 7 2 2025]).Pairwise (· < ·) :=
  ⟨by decide, assignedIds_increasing loadSpecialDates _ (by decide)⟩

/-- C5. In every registry reached from the seven seeded records by add, update and
delete actions, no two records have the same id. -/
theorem reachable_ids_nodup (ops : List DateOp) :
    ((runOps loadSpecialDates ops).map (·.id)).Nodup :=
  runOps_ids_nodup ops loadSpecialDates (by decide)

/-- C6. When the record an id matches has `is_custom = false`, `deleteSpecialDate`
returns `false`, shows and logs the error "Cannot delete default dates", and leaves
the registry as it was. -/
theorem deleteSpecialDate_builtin_forbidden (r : List SpecialDate) (id : Int)
    (d : SpecialDate) (hfind : r.find? (fun e => e.id == id) = some d)
    (hc : d.is_custom = false) :
    deleteSpecialDate r id =
      ⟨.bool false, ("Cannot delete default dates", "error"),
        some "Cannot delete default dates", r⟩ := by
  rcases registry_split r id with h | ⟨l₁, e, l₂, rfl, he, hpre⟩
  · have : r.find? (fun e => e.id == id) = none :=
      List.find?_eq_none.2 (fun x hx => by simpa using h x hx)
    rw [this] at hfind; cases hfind
  · rw [find?_id_at_split l₁ e l₂ id he hpre] at hfind
    have hed : e = d := Option.some.inj hfind
    rw [← hed] at hc
    rw [deleteSpecialDate_at_split l₁ e l₂ id he hpre, hc]
    rfl

/-- Witness for `deleteSpecialDate_builtin_forbidden`: deleting the seeded id 3. -/
theorem deleteSpecialDate_builtin_forbidden_witness :
    deleteSpecialDate loadSpecialDates 3 =
      ⟨.bool false, ("Cannot delete default dates", "error"),
        some "Cannot delete default dates", loadSpecialDates⟩ :=
  deleteSpecialDate_builtin_forbidden loadSpecialDates 3
    ⟨3, "Deep\x27s Birthday", 9, 29, 2004, false⟩ (by decide) rfl

/-- C7. For an id that no record carries, `updateSpecialDate` and
`deleteSpecialDate` both fail with the error "Date not found" (returning `false`;
update shows its general failure text, delete shows the error text) and leave the
registry as it was. -/
theorem absent_id_not_found (r : List SpecialDate) (id : Int) (name : String)
    (month day year : Int) (h : ∀ e ∈ r, e.id ≠ id) :
    updateSpecialDate r id name month day year =
      ⟨.bool false, ("Failed to update date. Please try again.", "error"),
        some "Date not found", r⟩ ∧
    deleteSpecialDate r id =
      ⟨.bool false, ("Date not found", "error"), some "Date not found", r⟩ :=
  ⟨updateSpecialDate_absent r id name month day year h, deleteSpecialDate_absent r id h⟩

/-- Witness for `absent_id_not_found`: id 42 on the seeded registry. -/
theorem absent_id_not_found_witness :
    updateSpecialDate loadSpecialDates 42 "Trip" 3 14 2025 =
      ⟨.bool false, ("Failed to update date. Please try again.", "error"),
        some "Date not found", loadSpecialDates⟩ ∧
    deleteSpecialDate loadSpecialDates 42 =
      ⟨.bool false, ("Date not found", "error"), some "Date not found",
        loadSpecialDates⟩ :=
  absent_id_not_found loadSpecialDates 42 "Trip" 3 14 2025 (by decide)

/-- C8. When some record carries the id, `updateSpecialDate` returns `true`; with
`i` the position of the first such record, the registry afterwards has the same
length, holds at `i` the record with that id, the new name, month, day and year and
`is_custom = true` (whatever the old flag was), and is unchanged elsewhere. -/
theorem updateSpecialDate_replaces_in_place (r : List SpecialDate) (id : Int)
    (name : String) (month day year : Int) (h : ∃ d ∈ r, d.id = id) :
    ∃ i, ∃ hi : i < r.length, r[i].id = id ∧
      (∀ j, ∀ hj : j < r.length, j < i → r[j].id ≠ id) ∧
      (updateSpecialDate r id name month day year).ret = JsValue.bool true ∧
      (updateSpecialDate r id name month day year).specialDates.length = r.length ∧
      (updateSpecialDate r id name month day year).specialDates[i]? =
        some ⟨id, name, month, day, year, true⟩ ∧
      ∀ j, j ≠ i →
        (updateSpecialDate r id name month day year).specialDates[j]? = r[j]? := by
  rcases registry_split r id with ha | ⟨l₁, d, l₂, rfl, hd, hpre⟩
  · obtain ⟨e, he, hid⟩ := h
    exact absurd hid (ha e he)
  · rw [updateSpecialDate_at_split l₁ d l₂ id name month day year hd hpre]
    have hi : l₁.length < (l₁ ++ d :: l₂).length := by simp
    have hget : (l₁ ++ d :: l₂)[l₁.length] = d := by
      obtain ⟨_, h2⟩ := List.getElem?_eq_some.1 (getElem?_at_split l₁ d l₂)
      exact h2
    refine ⟨l₁.length, hi, by rw [hget]; exact hd, ?_, rfl, by simp, ?_, ?_⟩
    · intro j hj hlt
      rw [List.getElem_append_left hlt]
      exact hpre _ (List.getElem_mem _)
    · exact getElem?_at_split l₁ _ l₂
    · intro j hj
      show (l₁ ++ _ :: l₂)[j]? = (l₁ ++ d :: l₂)[j]?
      rw [← set_at_split l₁ d ⟨id, name, month, day, year, true⟩ l₂]
      exact List.getElem?_set_ne (Ne.symm hj)

/-- Witness for `updateSpecialDate_replaces_in_place`: updating the seeded
(built-in) id 2 succeeds and the record at position 1 becomes a custom one. -/
theorem updateSpecialDate_replaces_in_place_witness :
    (updateSpecialDate loadSpecialDates 2 "Trip" 3 14 2025).specialDates[1]? =
      some ⟨2, "Trip", 3, 14, 2025, true⟩ ∧
    ∃ i, ∃ hi : i < loadSpecialDates.length, loadSpecialDates[i].id = 2 ∧
      (∀ j, ∀ hj : j < loadSpecialDates.length, j < i → loadSpecialDates[j].id ≠ 2) ∧
      (updateSpecialDate loadSpecialDates 2 "Trip" 3 14 2025).ret = JsValue.bool true ∧
      (updateSpecialDate loadSpecialDates 2 "Trip" 3 14 2025).specialDates.length =
        loadSpecialDates.length ∧
      (updateSpecialDate loadSpecialDates 2 "Trip" 3 14 2025).specialDates[i]? =
        some ⟨2, "Trip", 3, 14, 2025, true⟩ ∧
      ∀ j, j ≠ i →
        (updateSpecialDate loadSpecialDates 2 "Trip" 3 14 2025).specialDates[j]? =
          loadSpecialDates[j]? :=
  ⟨by decide, updateSpecialDate_replaces_in_place loadSpecialDates 2 "Trip" 3 14 2025
    ⟨⟨2, "Prachi\x27s Birthday", 1, 6, 2004, false⟩, by decide, rfl⟩⟩

/-- C9. In a registry whose ids are distinct, when a record `d` carries the id and
has `is_custom = true`, `deleteSpecialDate` returns `true` and the registry
afterwards is the old one with `d` taken out: the records before it and after it
stay, in order and unchanged. -/
theorem deleteSpecialDate_removes_one (r : List SpecialDate) (id : Int) (d : SpecialDate)
    (hnodup : (r.map (·.id)).Nodup) (hd : d ∈ r) (hid : d.id = id)
    (hc : d.is_custom = true) :
    (deleteSpecialDate r id).ret = JsValue.bool true ∧
    ∃ l₁ l₂, r = l₁ ++ d :: l₂ ∧ (deleteSpecialDate r id).specialDates = l₁ ++ l₂ := by
  rcases registry_split r id with ha | ⟨l₁, e, l₂, hr, he, hpre⟩
  · exact absurd hid (ha d hd)
  · have hmem : e ∈ r := by rw [hr]; simp
    have hed : e = d :=
      List.inj_on_of_nodup_map hnodup hmem hd (he.trans hid.symm)
    subst hed
    subst hr
    rw [deleteSpecialDate_at_split l₁ e l₂ id he hpre, hc]
    exact ⟨rfl, l₁, l₂, rfl, rfl⟩

/-- Witness for `deleteSpecialDate_removes_one`: a custom record between two
built-in ones is deleted and the built-in ones stay. -/
theorem deleteSpecialDate_removes_one_witness :
    (deleteSpecialDate
        [⟨1, "First", 9, 22, 2023, false⟩, ⟨8, "Trip", 3, 14, 2025, true⟩,
          ⟨2, "Second", 1, 6, 2004, false⟩] 8).specialDates =
      [⟨1, "First", 9, 22, 2023, false⟩, ⟨2, "Second", 1, 6, 2004, false⟩] ∧
    (deleteSpecialDate
        [⟨1, "First", 9, 22, 2023, false⟩, ⟨8, "Trip", 3, 14, 2025, true⟩,
          ⟨2, "Second", 1, 6, 2004, false⟩] 8).ret = JsValue.bool true :=
  ⟨by decide, (deleteSpecialDate_removes_one
    [⟨1, "First", 9, 22, 2023, false⟩, ⟨8, "Trip", 3, 14, 2025, true⟩,
      ⟨2, "Second", 1, 6, 2004, false⟩] 8 ⟨8, "Trip", 3, 14, 2025, true⟩
    (by decide) (by decide) rfl rfl).1⟩

/-! ## The claims on the task list -/

theorem set_of_getElem? {α : Type} (xs : List α) (i : Nat) (x : α)
    (h : xs[i]? = some x) : xs.set i x = xs := by
  induction xs generalizing i with
  | nil => rfl
  | cons a as ih =>
    cases i with
    | zero => simp at h; simp [h]
    | succ k => simp at h; simp [ih k h]

theorem elementAt_set_self {α : Type} (xs : List α) (index : Int) (x y : α)
    (h : elementAt xs index = some x) :
    elementAt (xs.set index.toNat y) index = some y := by
  unfold elementAt at h ⊢
  split_ifs at h ⊢ with h0
  have hlt : index.toNat < xs.length := by
    rcases Nat.lt_or_ge index.toNat xs.length with hl | hl
    · exact hl
    · rw [List.getElem?_eq_none hl] at h; cases h
  rw [List.getElem?_set_self hlt]

/-- C10. For every stored task sequence and every index, two calls of
`toggleTask` with that index both succeed, the key holds the original sequence
again afterwards, and the item at the index (if there is one) has its original
`completed` value. -/
theorem toggleTask_twice (tasks : List TaskItem) (index : Int) :
    ∃ s₁ s₂, toggleTask (.parsed tasks) index = .ok s₁ ∧ toggleTask s₁ index = .ok s₂ ∧
      s₂ = .parsed tasks ∧
      ∀ t, elementAt tasks index = some t →
        ∃ tasks₂ t₂, s₂ = .parsed tasks₂ ∧ elementAt tasks₂ index = some t₂ ∧
          t₂.completed = t.completed := by
  cases h : elementAt tasks index with
  | none =>
    refine ⟨.parsed tasks, .parsed tasks, ?_, ?_, rfl, fun t ht => by cases ht⟩ <;>
      simp [toggleTask, readList, h]
  | some task =>
    have h1 : toggleTask (.parsed tasks) index =
        .ok (.parsed (tasks.set index.toNat { task with completed := !task.completed })) := by
      simp [toggleTask, readList, h]
    have h2 := elementAt_set_self tasks index task
      { task with completed := !task.completed } h
    have hget : tasks[index.toNat]? = some task := by
      unfold elementAt at h
      split_ifs at h
      exact h
    have hback : (tasks.set index.toNat { task with completed := !task.completed }).set
        index.toNat task = tasks := by
      rw [List.set_set]
      exact set_of_getElem? tasks _ task hget
    have h3 : toggleTask
        (.parsed (tasks.set index.toNat { task with completed := !task.completed })) index =
        .ok (.parsed tasks) := by
      simp only [toggleTask, readList, h2, Bool.not_not]
      rw [hback]
    exact ⟨_, _, h1, h3, rfl, fun t ht => ⟨tasks, task, rfl, h, by cases ht; rfl⟩⟩

theorem splice1_past_end {α : Type} (xs : List α) (start : Int)
    (h : (xs.length : Int) ≤ start) : splice1 xs start = xs := by
  unfold splice1
  simp only []
  have h0 : ¬ start < 0 := by omega
  rw [if_neg h0, min_eq_right h]
  exact List.eraseIdx_of_length_le (by simp)

theorem splice1_negative {α : Type} (xs : List α) (start : Int) (h : start < 0) :
    splice1 xs start = xs.eraseIdx ((xs.length : Int) + start).toNat := by
  unfold splice1
  simp only []
  rw [if_pos h]
  rcases le_total ((xs.length : Int) + start) 0 with h1 | h1
  · rw [max_eq_right h1]
    have : ((xs.length : Int) + start).toNat = 0 := by omega
    rw [this]; rfl
  · rw [max_eq_left h1]

theorem splice1_in_range {α : Type} (xs : List α) (start : Int)
    (h0 : 0 ≤ start) : splice1 xs start = xs.eraseIdx start.toNat := by
  unfold splice1
  simp only []
  rw [if_neg (by omega)]
  rcases le_total start (xs.length : Int) with h1 | h1
  · rw [min_eq_left h1]
  · rw [min_eq_right h1]
    rw [List.eraseIdx_of_length_le (by simp), List.eraseIdx_of_length_le (by omega)]

/-- With a negative index `deleteTask` removes the item at `length + index`
(position 0 when that is negative). -/
theorem deleteTask_negative (tasks : List TaskItem) (index : Int) (h : index < 0) :
    deleteTask (.parsed tasks) index =
      .ok (.parsed (tasks.eraseIdx ((tasks.length : Int) + index).toNat)) := by
  simp only [deleteTask, readList, splice1_negative tasks index h]

/-- C11, as stated, fails: on a list of two tasks `deleteTask(-1)` removes the
last one. -/
theorem deleteTask_negative_removes_last :
    deleteTask (.parsed [⟨"buy milk", false, "2025-01-01T08:00:00.000Z"⟩,
        ⟨"call home", true, "2025-01-02T08:00:00.000Z"⟩]) (-1) =
      .ok (.parsed [⟨"buy milk", false, "2025-01-01T08:00:00.000Z"⟩]) ∧
    deleteTask (.parsed [⟨"buy milk", false, "2025-01-01T08:00:00.000Z"⟩,
        ⟨"call home", true, "2025-01-02T08:00:00.000Z"⟩]) (-1) ≠
      .ok (.parsed [⟨"buy milk", false, "2025-01-01T08:00:00.000Z"⟩,
        ⟨"call home", true, "2025-01-02T08:00:00.000Z"⟩]) := by
  decide

/-- C11, amended. For an index at or beyond the length of the stored sequence
`deleteTask` succeeds and leaves the sequence as it was. -/
theorem deleteTask_out_of_range (tasks : List TaskItem) (index : Int)
    (h : (tasks.length : Int) ≤ index) :
    deleteTask (.parsed tasks) index = .ok (.parsed tasks) := by
  simp only [deleteTask, readList, splice1_past_end tasks index h]

/-- Witness for `deleteTask_out_of_range`: index 5 on a list of one task. -/
theorem deleteTask_out_of_range_witness :
    deleteTask (.parsed [⟨"buy milk", false, "2025-01-01T08:00:00.000Z"⟩]) 5 =
      .ok (.parsed [⟨"buy milk", false, "2025-01-01T08:00:00.000Z"⟩]) :=
  deleteTask_out_of_range [⟨"buy milk", false, "2025-01-01T08:00:00.000Z"⟩] 5
    (by decide)

/-- C12. For every stored task sequence and index: out of bounds, `toggleTask`
succeeds and leaves the key as it was; in bounds, it succeeds and the stored
sequence keeps its length, holds at the index the old item with `completed`
negated and `text` and `createdAt` unchanged, and is unchanged at every other
position. -/
theorem toggleTask_effect (tasks : List TaskItem) (index : Int) :
    (¬ (0 ≤ index ∧ index < tasks.length) →
      toggleTask (.parsed tasks) index = .ok (.parsed tasks)) ∧
    (0 ≤ index ∧ index < tasks.length →
      ∃ t tasks₂, elementAt tasks index = some t ∧
        toggleTask (.parsed tasks) index = .ok (.parsed tasks₂) ∧
        tasks₂.length = tasks.length ∧
        elementAt tasks₂ index = some ⟨t.text, !t.completed, t.createdAt⟩ ∧
        ∀ j : Nat, (j : Int) ≠ index → tasks₂[j]? = tasks[j]?) := by
  constructor
  · intro h
    have hnone : elementAt tasks index = none := by
      unfold elementAt
      split_ifs with h0
      · exact List.getElem?_eq_none (by omega)
      · rfl
    simp only [toggleTask, readList, hnone]
  · rintro ⟨h0, h1⟩
    have hlt : index.toNat < tasks.length := by omega
    have hsome : elementAt tasks index = some tasks[index.toNat] := by
      unfold elementAt
      rw [if_pos h0]
      exact List.getElem?_eq_getElem hlt
    refine ⟨tasks[index.toNat],
      tasks.set index.toNat
        { tasks[index.toNat] with completed := !tasks[index.toNat].completed },
      hsome, ?_, ?_, ?_, ?_⟩
    · simp only [toggleTask, readList, hsome]
    · simp
    · exact elementAt_set_self tasks index _ _ hsome
    · intro j hj
      exact List.getElem?_set_ne (by omega)

/-- Witness for `toggleTask_effect`: the task "buy milk" alone in the list,
toggled at index 0, becomes completed with its text unchanged. -/
theorem toggleTask_effect_witness :
    toggleTask (.parsed [⟨"buy milk", false, "2025-01-01T08:00:00.000Z"⟩]) 0 =
      .ok (.parsed [⟨"buy milk", true, "2025-01-01T08:00:00.000Z"⟩]) ∧
    ∃ t tasks₂,
      elementAt [(⟨"buy milk", false, "2025-01-01T08:00:00.000Z"⟩ : TaskItem)] 0 = some t ∧
      toggleTask (.parsed [⟨"buy milk", false, "2025-01-01T08:00:00.000Z"⟩]) 0 =
        .ok (.parsed tasks₂) ∧
      tasks₂.length =
        [(⟨"buy milk", false, "2025-01-01T08:00:00.000Z"⟩ : TaskItem)].length ∧
      elementAt tasks₂ 0 = some ⟨t.text, !t.completed, t.createdAt⟩ ∧
      ∀ j : Nat, (j : Int) ≠ 0 →
        tasks₂[j]? = [(⟨"buy milk", false, "2025-01-01T08:00:00.000Z"⟩ : TaskItem)][j]? :=
  ⟨by decide,
    (toggleTask_effect [⟨"buy milk", false, "2025-01-01T08:00:00.000Z"⟩] 0).2
      (by decide)⟩

/-- `trim` leaves the empty string exactly when every character is white space. -/
theorem jsTrim_eq_empty_iff (text : String) :
    jsTrim text = "" ↔ ∀ c ∈ text.toList, isJsWhitespace c = true := by
  have hmk : ∀ l : List Char, String.mk l = "" ↔ l = [] := by
    intro l
    constructor
    · intro h
      have := congrArg String.data h
      simpa using this
    · rintro rfl; rfl
  unfold jsTrim
  rw [hmk, List.reverse_eq_nil_iff, List.dropWhile_eq_nil_iff]
  constructor
  · intro h
    by_contra hne
    have hne2 : text.toList.dropWhile isJsWhitespace ≠ [] := by
      intro h2
      exact hne (List.dropWhile_eq_nil_iff.1 h2)
    have hhead := List.head_dropWhile_not isJsWhitespace text.toList hne2
    have hmem : (text.toList.dropWhile isJsWhitespace).head hne2 ∈
        (text.toList.dropWhile isJsWhitespace).reverse :=
      List.mem_reverse.2 (List.head_mem hne2)
    have := h _ hmem
    rw [hhead] at this
    cases this
  · intro h x hx
    have hnil : text.toList.dropWhile isJsWhitespace = [] :=
      List.dropWhile_eq_nil_iff.2 h
    rw [hnil] at hx
    simp at hx

/-! ## The claims on stored values, adding and removing tasks -/

/-- C13, as stated, fails: with a string under `prachi-tasks` that is not JSON,
`loadTasks` throws instead of reading the empty sequence, and with a string under
`prachi-current-bg` that `parseInt` cannot read, `setBackground` sets the index to
`NaN` instead of 0. -/
theorem unparsable_storage_not_tolerated :
    loadTasks .unparsable = .error "SyntaxError" ∧
    loadTasks .unparsable ≠ .ok [] ∧
    setBackground ⟨.parsed [], .notNumber, some 0, backgroundImages⟩ = .ok none ∧
    setBackground ⟨.parsed [], .notNumber, some 0, backgroundImages⟩ ≠ .ok (some 0) := by
  decide

/-- C13, amended. When a key is absent, loading does not fail: `loadTasks`,
`addTask`, `toggleTask`, `deleteTask` and `setBackground` read an absent list as the
empty sequence, and `setBackground` reads an absent view index as 0. -/
theorem absent_storage_reads_empty (createdAt text : String) (index : Int)
    (savedIndex : StoredIndex) (cur : Option Int) (builtIns uploaded : List String) :
    loadTasks .absent = .ok [] ∧
    addTask .absent createdAt text =
      (if jsTrim text = "" then .ok .absent
        else .ok (.parsed [⟨jsTrim text, false, createdAt⟩])) ∧
    toggleTask .absent index = .ok .absent ∧
    deleteTask .absent index = .ok (.parsed []) ∧
    setBackground ⟨.absent, savedIndex, cur, builtIns⟩ =
      setBackground ⟨.parsed [], savedIndex, cur, builtIns⟩ ∧
    setBackground ⟨.parsed uploaded, .absent, cur, builtIns⟩ =
      .ok (if uploaded ++ builtIns = [] then cur else some 0) := by
  refine ⟨rfl, ?_, ?_, ?_, rfl, ?_⟩
  · unfold addTask
    split_ifs <;> rfl
  · have : elementAt ([] : List TaskItem) index = none := by
      unfold elementAt; split_ifs <;> rfl
    simp only [toggleTask, readList, this]
  · have : splice1 ([] : List TaskItem) index = [] := by
      unfold splice1; simp
    simp only [deleteTask, readList, this]
  · unfold setBackground
    simp only [readList, readIndex, jsMod]
    by_cases h : uploaded ++ builtIns = []
    · simp [h]
    · have hlen : (uploaded ++ builtIns).length ≠ 0 := by
        simpa [List.length_eq_zero] using h
      have hpos : (uploaded ++ builtIns).length > 0 := Nat.pos_of_ne_zero hlen
      simp only [hpos, if_true, hlen, if_false, h]
      simp

/-- C16. For every input text, `addTask` followed by `deleteTask(0)` on an empty
stored task list (the key absent, or holding the empty list) succeeds and leaves
the empty list. -/
theorem addTask_then_deleteTask_empty (createdAt text : String) :
    (∃ s₁, addTask .absent createdAt text = .ok s₁ ∧
      deleteTask s₁ 0 = .ok (.parsed [])) ∧
    (∃ s₁, addTask (.parsed []) createdAt text = .ok s₁ ∧
      deleteTask s₁ 0 = .ok (.parsed [])) := by
  constructor
  · by_cases h : jsTrim text = ""
    · exact ⟨.absent, by simp [addTask, h], rfl⟩
    · exact ⟨.parsed [⟨jsTrim text, false, createdAt⟩], by simp [addTask, h, readList], rfl⟩
  · by_cases h : jsTrim text = ""
    · exact ⟨.parsed [], by simp [addTask, h], rfl⟩
    · exact ⟨.parsed [⟨jsTrim text, false, createdAt⟩], by simp [addTask, h, readList], rfl⟩

/-- C17. For every stored task sequence and input text: when every character of
the text is white space (the empty text included), `addTask` succeeds and leaves
the key as it was; otherwise it succeeds and the stored sequence is the old one
followed by one item with the trimmed text, `completed = false` and the clock
reading. -/
theorem addTask_effect (tasks : List TaskItem) (createdAt text : String) :
    ((∀ c ∈ text.toList, isJsWhitespace c = true) →
      addTask (.parsed tasks) createdAt text = .ok (.parsed tasks)) ∧
    (¬ (∀ c ∈ text.toList, isJsWhitespace c = true) →
      addTask (.parsed tasks) createdAt text =
        .ok (.parsed (tasks ++ [⟨jsTrim text, false, createdAt⟩]))) := by
  constructor
  · intro h
    have := (jsTrim_eq_empty_iff text).2 h
    simp [addTask, this]
  · intro h
    have : ¬ jsTrim text = "" := fun h2 => h ((jsTrim_eq_empty_iff text).1 h2)
    simp [addTask, this, readList]

/-- Witness for `addTask_effect`: a blank text changes nothing, and a text with
white space around it is appended trimmed. -/
theorem addTask_effect_witness :
    addTask (.parsed [⟨"call home", true, "2025-01-02T08:00:00.000Z"⟩])
        "2025-01-03T08:00:00.000Z" " \t " =
      .ok (.parsed [⟨"call home", true, "2025-01-02T08:00:00.000Z"⟩]) ∧
    addTask (.parsed [⟨"call home", true, "2025-01-02T08:00:00.000Z"⟩])
        "2025-01-03T08:00:00.000Z" "  buy milk\n" =
      .ok (.parsed [⟨"call home", true, "2025-01-02T08:00:00.000Z"⟩,
        ⟨"buy milk", false, "2025-01-03T08:00:00.000Z"⟩]) :=
  ⟨(addTask_effect [⟨"call home", true, "2025-01-02T08:00:00.000Z"⟩]
      "2025-01-03T08:00:00.000Z" " \t ").1 (by decide),
    by
      have h := (addTask_effect [⟨"call home", true, "2025-01-02T08:00:00.000Z"⟩]
        "2025-01-03T08:00:00.000Z" "  buy milk\n").2 (by decide)
      have ht : jsTrim "  buy milk\n" = "buy milk" := by decide
      rw [ht] at h
      exact h⟩

/-! ## The claims on the photo gallery -/

theorem deleteCurrentPhoto_removes (uploaded builtIns : List String) (v : Int)
    (savedIndex : StoredIndex) (h0 : 0 ≤ v) (h1 : v < uploaded.length)
    (h2 : 1 < uploaded.length + builtIns.length) :
    deleteCurrentPhoto ⟨.parsed uploaded, savedIndex, some v, builtIns⟩ =
      .ok ⟨some ("Photo deleted successfully!", "success"),
        ⟨.parsed (uploaded.eraseIdx v.toNat),
          .number (if v ≥ ((uploaded.eraseIdx v.toNat ++ builtIns).length : Int) then 0 else v),
          some (if v ≥ ((uploaded.eraseIdx v.toNat ++ builtIns).length : Int) then 0 else v),
          builtIns⟩⟩ := by
  have hlen : ¬ (uploaded ++ builtIns).length ≤ 1 := by
    rw [List.length_append]; omega
  simp only [deleteCurrentPhoto, readList, hlen, if_false, h1, if_true,
    splice1_in_range uploaded v h0]

theorem deleteCurrentPhoto_refuses (uploaded builtIns : List String) (v : Int)
    (savedIndex : StoredIndex)
    (h : ¬ (v < uploaded.length ∧ 1 < uploaded.length + builtIns.length)) :
    deleteCurrentPhoto ⟨.parsed uploaded, savedIndex, some v, builtIns⟩ =
      .ok ⟨some (if (uploaded ++ builtIns).length ≤ 1 then "Cannot delete the last photo!"
          else "Cannot delete default photos. Only uploaded photos can be deleted.", "error"),
        ⟨.parsed uploaded, savedIndex, some v, builtIns⟩⟩ := by
  by_cases hlen : (uploaded ++ builtIns).length ≤ 1
  · simp only [deleteCurrentPhoto, readList, hlen, if_true]
  · have hlt : ¬ v < (uploaded.length : Int) := by
      rw [List.length_append] at hlen
      omega
    simp only [deleteCurrentPhoto, readList, hlen, if_false, hlt]

/-- The behaviour of `deleteCurrentPhoto` at a view index that is not negative:
when `viewIndex` falls within the uploaded list and the two lists together have
more than one photo, `deleteCurrentPhoto` removes exactly `uploaded[viewIndex]`;
otherwise it refuses with an error toast and leaves the stored list, the stored
index and the view index as they were.  The built-in list is the same afterwards
in both cases. -/
theorem deleteCurrentPhoto_effect (uploaded builtIns : List String) (viewIndex : Nat)
    (savedIndex : StoredIndex) :
    (viewIndex < uploaded.length ∧ 1 < uploaded.length + builtIns.length →
      ∃ res, deleteCurrentPhoto ⟨.parsed uploaded, savedIndex, some viewIndex, builtIns⟩ =
          .ok res ∧
        res.toast = some ("Photo deleted successfully!", "success") ∧
        res.gallery.savedImages = .parsed (uploaded.eraseIdx viewIndex) ∧
        res.gallery.backgroundImages = builtIns) ∧
    (¬ (viewIndex < uploaded.length ∧ 1 < uploaded.length + builtIns.length) →
      ∃ res, deleteCurrentPhoto ⟨.parsed uploaded, savedIndex, some viewIndex, builtIns⟩ =
          .ok res ∧
        (∃ text, res.toast = some (text, "error")) ∧
        res.gallery = ⟨.parsed uploaded, savedIndex, some viewIndex, builtIns⟩) := by
  constructor
  · rintro ⟨h1, h2⟩
    have h := deleteCurrentPhoto_removes uploaded builtIns viewIndex savedIndex
      (by omega) (by omega) h2
    rw [Int.toNat_ofNat] at h
    exact ⟨_, h, rfl, rfl, rfl⟩
  · intro h
    have hr := deleteCurrentPhoto_refuses uploaded builtIns viewIndex savedIndex
      (by omega)
    exact ⟨_, hr, ⟨_, rfl⟩, rfl⟩

/-- An instance of `deleteCurrentPhoto_effect`: with two built-in photos and none
uploaded the deletion is refused at index 1; with one uploaded photo shown it is
removed. -/
theorem deleteCurrentPhoto_effect_witness :
    (∃ res, deleteCurrentPhoto ⟨.parsed [], .number 1, some ((1 : Nat) : Int),
          ["a.jpg", "b.jpg"]⟩ = .ok res ∧
        (∃ text, res.toast = some (text, "error")) ∧
        res.gallery = ⟨.parsed [], .number 1, some ((1 : Nat) : Int), ["a.jpg", "b.jpg"]⟩) ∧
    (∃ res, deleteCurrentPhoto ⟨.parsed ["data:x"], .number 0, some ((0 : Nat) : Int),
          ["a.jpg", "b.jpg"]⟩ = .ok res ∧
        res.toast = some ("Photo deleted successfully!", "success") ∧
        res.gallery.savedImages = .parsed (["data:x"].eraseIdx 0) ∧
        res.gallery.backgroundImages = ["a.jpg", "b.jpg"]) :=
  ⟨(deleteCurrentPhoto_effect [] ["a.jpg", "b.jpg"] 1 (.number 1)).2 (by decide),
    (deleteCurrentPhoto_effect ["data:x"] ["a.jpg", "b.jpg"] 0 (.number 0)).1 (by decide)⟩

/-- C14, defect in the code. With two uploaded photos and the string "-1" under
`prachi-current-bg`, `setBackground` sets the view index to -1, which points at no
uploaded photo; `deleteCurrentPhoto` then passes its test `currentImageIndex <
savedImages.length`, removes the last uploaded photo and reports success, where
the claim (and the comment above that test) has a photo removed only when the view
index falls within the uploaded list. -/
theorem deleteCurrentPhoto_negative_index_deletes :
    setBackground ⟨.parsed ["data:x", "data:y"], .number (-1), some 0, backgroundImages⟩ =
      .ok (some (-1)) ∧
    elementAt ["data:x", "data:y"] (-1) = none ∧
    deleteCurrentPhoto
        ⟨.parsed ["data:x", "data:y"], .number (-1), some (-1), backgroundImages⟩ =
      .ok ⟨some ("Photo deleted successfully!", "success"),
        ⟨.parsed ["data:x"], .number (-1), some (-1), backgroundImages⟩⟩ := by
  decide

theorem nextBackground_in_range (uploaded builtIns : List String) (v : Int)
    (savedIndex : StoredIndex) (h0 : 0 ≤ v)
    (h1 : v < (uploaded.length : Int) + builtIns.length) :
    nextBackground ⟨.parsed uploaded, savedIndex, some v, builtIns⟩ =
      .ok ⟨.parsed uploaded,
        .number ((v + 1) % ((uploaded.length : Int) + builtIns.length)),
        some ((v + 1) % ((uploaded.length : Int) + builtIns.length)), builtIns⟩ := by
  have hne : (uploaded ++ builtIns).length ≠ 0 := by
    rw [List.length_append]; omega
  have hcast : (((uploaded ++ builtIns).length : Nat) : Int) =
      (uploaded.length : Int) + builtIns.length := by
    rw [List.length_append]; push_cast; rfl
  have hmod : Int.tmod (v + 1) ((uploaded ++ builtIns).length : Nat) =
      (v + 1) % ((uploaded.length : Int) + builtIns.length) := by
    rw [Int.tmod_eq_emod (by omega) (by omega), hcast]
  simp only [nextBackground, readList, Option.map_some', jsMod, hne, if_false, hmod,
    writeIndex]

theorem prevBackground_in_range (uploaded builtIns : List String) (v : Int)
    (savedIndex : StoredIndex) :
    prevBackground ⟨.parsed uploaded, savedIndex, some v, builtIns⟩ =
      .ok ⟨.parsed uploaded,
        .number (if v = 0 then (uploaded.length : Int) + builtIns.length - 1 else v - 1),
        some (if v = 0 then (uploaded.length : Int) + builtIns.length - 1 else v - 1),
        builtIns⟩ := by
  have hcast : (((uploaded ++ builtIns).length : Nat) : Int) =
      (uploaded.length : Int) + builtIns.length := by
    rw [List.length_append]; push_cast; rfl
  by_cases hv : v = 0
  · subst hv
    simp only [prevBackground, readList, if_true, hcast, writeIndex]
  · have hv2 : ¬ (some v = some (0 : Int)) := fun h => hv (Option.some.inj h)
    simp only [prevBackground, readList, hv2, hv, if_false, Option.map_some', writeIndex]

/-- C15. From a state whose view index satisfies `0 ≤ viewIndex <
uploaded.length + builtIns.length`, each of `uploadPhoto`, `deleteCurrentPhoto`,
`nextBackground` and `prevBackground` succeeds and leaves a view index in that
range for the uploaded list it leaves; `nextBackground` leaves
`(viewIndex + 1) mod` the total length, which is 0 from the last index. -/
theorem cursor_stays_in_range (uploaded builtIns : List String) (viewIndex : Int)
    (savedIndex : StoredIndex) (imageUrl : String) (h0 : 0 ≤ viewIndex)
    (h1 : viewIndex < (uploaded.length : Int) + builtIns.length) :
    (∃ res, uploadPhoto ⟨.parsed uploaded, savedIndex, some viewIndex, builtIns⟩ imageUrl =
        .ok res ∧ cursorInRange res.gallery = true) ∧
    (∃ res, deleteCurrentPhoto ⟨.parsed uploaded, savedIndex, some viewIndex, builtIns⟩ =
        .ok res ∧ cursorInRange res.gallery = true) ∧
    (∃ g, nextBackground ⟨.parsed uploaded, savedIndex, some viewIndex, builtIns⟩ = .ok g ∧
        cursorInRange g = true ∧ g.savedImages = .parsed uploaded ∧
        g.currentImageIndex =
          some ((viewIndex + 1) % ((uploaded.length : Int) + builtIns.length)) ∧
        (viewIndex = (uploaded.length : Int) + builtIns.length - 1 →
          g.currentImageIndex = some 0)) ∧
    (∃ g, prevBackground ⟨.parsed uploaded, savedIndex, some viewIndex, builtIns⟩ = .ok g ∧
        cursorInRange g = true) := by
  refine ⟨?_, ?_, ?_, ?_⟩
  · refine ⟨_, rfl, ?_⟩
    simp only [cursorInRange, readList, decide_eq_true_eq, List.length_append,
      List.length_singleton]
    push_cast
    omega
  · by_cases hc : viewIndex < uploaded.length ∧ 1 < uploaded.length + builtIns.length
    · refine ⟨_, deleteCurrentPhoto_removes uploaded builtIns viewIndex savedIndex h0
        hc.1 hc.2, ?_⟩
      have hlt : viewIndex.toNat < uploaded.length := by omega
      have hlen : (uploaded.eraseIdx viewIndex.toNat).length = uploaded.length - 1 :=
        List.length_eraseIdx_of_lt hlt
      simp only [cursorInRange, readList, decide_eq_true_eq, List.length_append, hlen]
      split_ifs with hge
      · omega
      · push_cast at hge ⊢
        omega
    · refine ⟨_, deleteCurrentPhoto_refuses uploaded builtIns viewIndex savedIndex hc, ?_⟩
      simp only [cursorInRange, readList, decide_eq_true_eq]
      omega
  · refine ⟨_, nextBackground_in_range uploaded builtIns viewIndex savedIndex h0 h1,
      ?_, rfl, rfl, ?_⟩
    · simp only [cursorInRange, readList, decide_eq_true_eq]
      exact ⟨Int.emod_nonneg _ (by omega), Int.emod_lt_of_pos _ (by omega)⟩
    · intro hlast
      show some ((viewIndex + 1) % ((uploaded.length : Int) + builtIns.length)) = some 0
      have : viewIndex + 1 = (uploaded.length : Int) + builtIns.length := by omega
      rw [this, Int.emod_self]
  · refine ⟨_, prevBackground_in_range uploaded builtIns viewIndex savedIndex, ?_⟩
    simp only [cursorInRange, readList, decide_eq_true_eq]
    split_ifs <;> omega

/-- Witness for `cursor_stays_in_range`: one uploaded photo and the three built-in
ones, the last of the four shown; `nextBackground` wraps to index 0. -/
theorem cursor_stays_in_range_witness :
    nextBackground ⟨.parsed ["data:x"], .number 3, some 3, backgroundImages⟩ =
      .ok ⟨.parsed ["data:x"], .number 0, some 0, backgroundImages⟩ ∧
    ∃ g, prevBackground ⟨.parsed ["data:x"], .number 3, some 3, backgroundImages⟩ = .ok g ∧
      cursorInRange g = true :=
  ⟨by decide,
    (cursor_stays_in_range ["data:x"] backgroundImages 3 (.number 3) "data:y"
      (by decide) (by decide)).2.2.2⟩

/-! ## The claim on the countdown -/

/-- C18. With `timeDiff` the time in milliseconds from the second clock reading to
the nearest occurrence: when `timeDiff` is positive `updateCountdown` renders days,
hours, minutes and seconds with `0 ≤ days`, `0 ≤ hours < 24`, `0 ≤ minutes < 60`,
`0 ≤ seconds < 60`, and `timeDiff` lies from their total in milliseconds up to,
not including, one second more; when `timeDiff ≤ 0` nothing is rendered. -/
theorem updateCountdown_fields (tz now₁ now₂ : Int) (specialDates : List SpecialDate)
    (nextEvent : NearestEvent)
    (hnext : getNextSpecialDate tz now₁ specialDates = some nextEvent) :
    (0 < nextEvent.date - now₂ →
      ∃ c, updateCountdown tz now₁ now₂ specialDates = some c ∧
        0 ≤ c.days ∧ 0 ≤ c.hours ∧ c.hours < 24 ∧ 0 ≤ c.minutes ∧ c.minutes < 60 ∧
        0 ≤ c.seconds ∧ c.seconds < 60 ∧
        c.days * 86400000 + c.hours * 3600000 + c.minutes * 60000 + c.seconds * 1000 ≤
          nextEvent.date - now₂ ∧
        nextEvent.date - now₂ <
          c.days * 86400000 + c.hours * 3600000 + c.minutes * 60000 +
            (c.seconds + 1) * 1000) ∧
    (nextEvent.date - now₂ ≤ 0 → updateCountdown tz now₁ now₂ specialDates = none) := by
  constructor
  · intro hpos
    have hnot : ¬ nextEvent.date - now₂ ≤ 0 := by omega
    have hd : Int.tmod (nextEvent.date - now₂) (1000 * 60 * 60 * 24) =
        (nextEvent.date - now₂) % 86400000 :=
      Int.tmod_eq_emod (by omega) (by norm_num)
    have hh : Int.tmod (nextEvent.date - now₂) (1000 * 60 * 60) =
        (nextEvent.date - now₂) % 3600000 :=
      Int.tmod_eq_emod (by omega) (by norm_num)
    have hm : Int.tmod (nextEvent.date - now₂) (1000 * 60) =
        (nextEvent.date - now₂) % 60000 :=
      Int.tmod_eq_emod (by omega) (by norm_num)
    refine ⟨⟨(nextEvent.date - now₂) / 86400000,
      (nextEvent.date - now₂) % 86400000 / 3600000,
      (nextEvent.date - now₂) % 3600000 / 60000,
      (nextEvent.date - now₂) % 60000 / 1000,
      nextEvent.event.name, nextEvent.date⟩, ?_, ?_⟩
    · simp only [updateCountdown, hnext, hnot, if_false, hd, hh, hm]
      norm_num
    · simp only []
      omega
  · intro hle
    simp only [updateCountdown, hnext, hle, if_true]

/-- Witness for `updateCountdown_fields`: the seeded dates, the first clock reading
on 14 November 2023 22:13:20 UTC and the second one second later; the nearest date
is 15 November, 1 h 46 min 39 s away. -/
theorem updateCountdown_fields_witness :
    updateCountdown 0 1700000000000 1700000001000 loadSpecialDates =
      some ⟨0, 1, 46, 39, "First Met Anniversary", 1700006400000⟩ ∧
    ∃ c, updateCountdown 0 1700000000000 1700000001000 loadSpecialDates = some c ∧
      0 ≤ c.days ∧ 0 ≤ c.hours ∧ c.hours < 24 ∧ 0 ≤ c.minutes ∧ c.minutes < 60 ∧
      0 ≤ c.seconds ∧ c.seconds < 60 ∧
      c.days * 86400000 + c.hours * 3600000 + c.minutes * 60000 + c.seconds * 1000 ≤
        (1700006400000 : Int) - 1700000001000 ∧
      (1700006400000 : Int) - 1700000001000 <
        c.days * 86400000 + c.hours * 3600000 + c.minutes * 60000 +
          (c.seconds + 1) * 1000 :=
  ⟨by decide,
    (updateCountdown_fields 0 1700000000000 1700000001000 loadSpecialDates
      ⟨⟨6, "First Met Anniversary", 11, 15, 2023, false⟩, 1700006400000, 0⟩
      (by decide)).1 (by decide)⟩

end OurPage
